import Mathlib

/-!
Shallow embedding of the pensieve binary-patching engine:
- src/bloomberg/pensieve/_pensieve/hooks.cpp (symbol finder callback,
  intercept trampolines)
- src/bloomberg/pensieve/_pensieve/elf_shenanigans.cpp (symbol patcher and
  the global overwrite/restore sweeps)

Pointers and addresses are modelled as natural numbers, with 0 standing for
the null pointer.  The real (un-hooked) implementations of the C library
functions are external to the subsystem: every trampoline is therefore
parametrised by the value the real call returns, and produces, next to its
return value, the ordered trace of observable actions the C function body
performs (the real call and the notifications sent to the external sink).
-/

set_option linter.unusedVariables false

namespace PensieveModel

/-- Allocator classification passed to the sink, from hooks.h
(values used in hooks.cpp). -/
inductive Allocator where
  | MALLOC
  | FREE
  | CALLOC
  | REALLOC
  | POSIX_MEMALIGN
  | MEMALIGN
  | VALLOC
  | PVALLOC
  | MMAP
  | MUNMAP
  deriving DecidableEq

/-- Observable actions a trampoline performs, in program order: the
invocation of the real implementation, and the calls into the external
event sink (tracking_api). -/
inductive Action where
  | callReal (name : String)
  | trackAllocation (ptr size : Nat) (allocator : Allocator)
  | trackDeallocation (ptr size : Nat) (allocator : Allocator)
  | invalidateModuleCache
  | flushNativeTraceCache
  deriving DecidableEq

/-- The sub-trace of sink notifications: every action except the real
call itself. -/
def sinkActions (trace : List Action) : List Action :=
  trace.filter (fun a =>
    match a with
    | .callReal _ => false
    | _ => true)

namespace intercept

/-- intercept::malloc (hooks.cpp): calls the real malloc, then notifies the
sink unconditionally with the resulting pointer and requested size. -/
def malloc (size : Nat) (real_malloc : Nat) : Nat × List Action :=
  let ptr := real_malloc
  (ptr, [.callReal "malloc", .trackAllocation ptr size .MALLOC])

/-- intercept::free (hooks.cpp): notifies the sink with (ptr, 0, FREE)
before performing the real free. -/
def free (ptr : Nat) : List Action :=
  [.trackDeallocation ptr 0 .FREE, .callReal "free"]

/-- intercept::realloc (hooks.cpp): calls the real realloc; on a non-null
result emits a deallocation for the old pointer (size 0) followed by an
allocation for the new pointer; on null emits nothing. -/
def realloc (ptr size : Nat) (real_realloc : Nat) : Nat × List Action :=
  let ret := real_realloc
  (ret,
    .callReal "realloc" ::
      if ret ≠ 0 then
        [.trackDeallocation ptr 0 .FREE, .trackAllocation ret size .REALLOC]
      else [])

/-- intercept::calloc (hooks.cpp): calls the real calloc; on a non-null
result notifies the sink with size num * size. -/
def calloc (num size : Nat) (real_calloc : Nat) : Nat × List Action :=
  let ret := real_calloc
  (ret,
    .callReal "calloc" ::
      if ret ≠ 0 then [.trackAllocation ret (num * size) .CALLOC] else [])

/-- intercept::posix_memalign (hooks.cpp): calls the real posix_memalign;
only when it returns 0 (success) notifies the sink with the pointer the
real call stored through memptr. -/
def posix_memalign (alignment size : Nat) (real_ret : Int) (real_memptr : Nat) :
    Int × List Action :=
  (real_ret,
    .callReal "posix_memalign" ::
      if real_ret = 0 then [.trackAllocation real_memptr size .POSIX_MEMALIGN] else [])

/-- intercept::memalign (hooks.cpp). -/
def memalign (alignment size : Nat) (real_memalign : Nat) : Nat × List Action :=
  let ret := real_memalign
  (ret,
    .callReal "memalign" ::
      if ret ≠ 0 then [.trackAllocation ret size .MEMALIGN] else [])

/-- intercept::valloc (hooks.cpp). -/
def valloc (size : Nat) (real_valloc : Nat) : Nat × List Action :=
  let ret := real_valloc
  (ret,
    .callReal "valloc" ::
      if ret ≠ 0 then [.trackAllocation ret size .VALLOC] else [])

/-- intercept::pvalloc (hooks.cpp). -/
def pvalloc (size : Nat) (real_pvalloc : Nat) : Nat × List Action :=
  let ret := real_pvalloc
  (ret,
    .callReal "pvalloc" ::
      if ret ≠ 0 then [.trackAllocation ret size .PVALLOC] else [])

/-- intercept::mmap (hooks.cpp): calls the real mmap, then notifies the
sink unconditionally with the result and the requested length. -/
def mmap (addr length prot flags fd offset : Nat) (real_mmap : Nat) :
    Nat × List Action :=
  let ptr := real_mmap
  (ptr, [.callReal "mmap", .trackAllocation ptr length .MMAP])

/-- intercept::mmap64 (hooks.cpp): same as mmap; the classification is
also Allocator::MMAP. -/
def mmap64 (addr length prot flags fd offset : Nat) (real_mmap64 : Nat) :
    Nat × List Action :=
  let ptr := real_mmap64
  (ptr, [.callReal "mmap64", .trackAllocation ptr length .MMAP])

/-- intercept::munmap (hooks.cpp): notifies the sink with (addr, length,
MUNMAP) before performing the real munmap. -/
def munmap (addr length : Nat) (real_munmap : Int) : Int × List Action :=
  (real_munmap, [.trackDeallocation addr length .MUNMAP, .callReal "munmap"])

/-- intercept::dlclose (hooks.cpp): performs the real dlclose, always
flushes the native trace cache, and invalidates the module cache only when
the real call returned 0 (success). -/
def dlclose (handle : Nat) (real_dlclose : Int) : Int × List Action :=
  let ret := real_dlclose
  (ret,
    [.callReal "dlclose", .flushNativeTraceCache] ++
      if ret = 0 then [.invalidateModuleCache] else [])

/-- intercept::dlopen (hooks.cpp): performs the real dlopen and, on a
non-null result, invalidates the module cache. -/
def dlopen (filename : String) (flag : Nat) (real_dlopen : Nat) :
    Nat × List Action :=
  let ret := real_dlopen
  (ret,
    .callReal "dlopen" ::
      if ret ≠ 0 then [.invalidateModuleCache] else [])

end intercept

/-! ## ELF data model (elf_shenanigans.cpp, hooks.cpp) -/

/-- A hook descriptor from the fixed catalog (SymbolHook in hooks.h as used
by elf_shenanigans.cpp): the symbol name, the captured original function
pointer, and the address of the matching intercept trampoline that TRY_HOOK
pairs with it. -/
structure Hook where
  d_symbol : String
  d_original : Nat
  intercept_fn : Nat
  deriving DecidableEq

/-- A relocation entry (Elf_Rel / Elf_Rela / jmprel entry): slot offset and
the r_info word packing the symbol-table index. -/
structure Reloc where
  r_offset : Nat
  r_info : Nat
  deriving DecidableEq

/-- ELF64_R_SYM on x86_64 / aarch64: the symbol index is the upper 32 bits
of r_info. -/
def ELF_R_SYM (r_info : Nat) : Nat := r_info / 2 ^ 32

/-- PT_DYNAMIC program-header type tag. -/
def PT_DYNAMIC : Nat := 2

/-- A program header together with the dynamic-section data it leads to.
The C code reaches the Dyn structure through p_vaddr + dlpi_addr and then
builds the three relocation views and the symbol table from it; here that
pointer chasing is flattened: a PT_DYNAMIC header directly carries the
three relocation tables (RelTable, RelaTable, JmprelTable) and the symbol
table content. -/
structure Phdr where
  p_type : Nat
  rels : List Reloc
  relas : List Reloc
  jmprels : List Reloc
  symnames : List String
  symaddrs : List (String × Nat)
  deriving DecidableEq

/-- A loaded module as reported by dl_iterate_phdr (dl_phdr_info): load
path, load base address, and program headers. -/
structure dl_phdr_info where
  dlpi_name : String
  dlpi_addr : Nat
  dlpi_phdr : List Phdr
  deriving DecidableEq

/-- Modelled from the spec: SymbolTable (elf_utils, not under src/) maps a
symbol-table index to a name via the associated string table
("index→name via the associated string table"); an out-of-range index
yields the empty name. -/
def getSymbolNameByIndex (phdr : Phdr) (index : Nat) : String :=
  phdr.symnames.getD index ""

/-- Modelled from the spec: SymbolTable (elf_utils, not under src/)
resolves a "name→address via linear/string-matched lookup"; a name with no
entry resolves to 0, which the callers treat as not-found. -/
def getSymbolAddress (phdr : Phdr) (name : String) : Nat :=
  match phdr.symaddrs.find? (fun p => p.1 = name) with
  | some p => p.2
  | none => 0

/-- Boolean model of C strstr(haystack, needle) used for module-path
exclusion tests: does needle occur as a contiguous substring? -/
def strstrContains (haystack needle : String) : Bool :=
  haystack.data.tails.any (fun t => needle.data.isPrefixOf t)

/-- Process memory restricted to relocation slots: a map from slot address
to the pointer-sized value stored there. -/
abbrev Mem := Nat → Nat

/-- A single pointer-sized store. -/
def store (mem : Mem) (addr v : Nat) : Mem :=
  fun a => if a = addr then v else mem a

/-! ## Symbol patcher (patch_symbol, elf_shenanigans.cpp) -/

/-- The value patch_symbol stores into the relocation slot: the captured
original pointer when restoring, the intercept trampoline otherwise. -/
def patched_value (hook : Hook) (intercept_fn : Nat) (restore_original : Bool) : Nat :=
  if restore_original then hook.d_original else intercept_fn

/-- Outcome of one patch_symbol call: whether the mprotect failure warning
was logged, and the value written into the slot.  There is no error field:
patch_symbol returns void to its caller. -/
structure PatchOutcome where
  warned : Bool
  written : Nat
  deriving DecidableEq

/-- patch_symbol (elf_shenanigans.cpp): calls unprotect_page (mprotect) on
the slot's page, logs a warning if that returned a negative value, and
then writes the slot unconditionally. -/
def patch_symbol (hook : Hook) (intercept_fn : Nat) (unprotect_result : Int)
    (restore_original : Bool) : PatchOutcome :=
  { warned := decide (unprotect_result < 0)
    written := patched_value hook intercept_fn restore_original }

/-! ## One relocation entry (overwrite_elf_table body) -/

/-- The write performed for one relocation entry, if any: resolve the
symbol name from ELF_R_SYM(r_info), compute r_offset + base, and run the
TRY_HOOK chain — the first hook whose d_symbol equals the name is patched
(and the loop continues with the next entry); entries matching no hook are
skipped. -/
def relocWrite (hooks : List Hook) (phdr : Phdr) (base : Nat)
    (restore_original : Bool) (relocation : Reloc) : Option (Nat × Nat) :=
  match hooks.find?
      (fun h => h.d_symbol = getSymbolNameByIndex phdr (ELF_R_SYM relocation.r_info)) with
  | some hook =>
    some (relocation.r_offset + base,
      patched_value hook hook.intercept_fn restore_original)
  | none => none

/-- overwrite_elf_table (elf_shenanigans.cpp): fold one relocation table
over memory, applying each entry's write. -/
def overwrite_elf_table (hooks : List Hook) (table : List Reloc) (phdr : Phdr)
    (base : Nat) (restore_original : Bool) (mem : Mem) : Mem :=
  table.foldl
    (fun m rel =>
      match relocWrite hooks phdr base restore_original rel with
      | some w => store m w.1 w.2
      | none => m)
    mem

/-- patch_symbols (elf_shenanigans.cpp): apply the three relocation views
in order — RELS, then RELAS, then JMPRELS. -/
def patch_symbols (hooks : List Hook) (phdr : Phdr) (base : Nat)
    (restore_original : Bool) (mem : Mem) : Mem :=
  let m1 := overwrite_elf_table hooks phdr.rels phdr base restore_original mem
  let m2 := overwrite_elf_table hooks phdr.relas phdr base restore_original m1
  overwrite_elf_table hooks phdr.jmprels phdr base restore_original m2

/-- The exclusion test in phdrs_callback: the dynamic linker
("/ld-linux") and the vdso ("linux-vdso.so.1") are never patched. -/
def excludedModule (name : String) : Bool :=
  strstrContains name "/ld-linux" || strstrContains name "linux-vdso.so.1"

/-- The scanning part of phdrs_callback, after the patched-set handling:
skip excluded modules entirely, otherwise patch every PT_DYNAMIC program
header. -/
def scan_module (hooks : List Hook) (restore_original : Bool)
    (info : dl_phdr_info) (mem : Mem) : Mem :=
  if excludedModule info.dlpi_name then mem
  else
    info.dlpi_phdr.foldl
      (fun m phdr =>
        if phdr.p_type = PT_DYNAMIC then
          patch_symbols hooks phdr info.dlpi_addr restore_original m
        else m)
      mem

/-- The sweep state: the static patched-module set of phdrs_callback and
the relocation-slot memory. -/
structure SweepState where
  patched : List String
  mem : Mem

/-- phdrs_callback (elf_shenanigans.cpp) for one module: a restore sweep
clears the patched set; an overwrite sweep returns early when the module's
path is already in the set and otherwise inserts it — before the
dynamic-linker / vdso exclusion check runs. -/
def phdrs_callback (hooks : List Hook) (restore_original : Bool)
    (st : SweepState) (info : dl_phdr_info) : SweepState :=
  if restore_original then
    { patched := [], mem := scan_module hooks restore_original info st.mem }
  else if info.dlpi_name ∈ st.patched then st
  else
    { patched := info.dlpi_name :: st.patched
      mem := scan_module hooks restore_original info st.mem }

/-- overwrite_symbols (elf_shenanigans.cpp): dl_iterate_phdr with
restore_original = false; the callback always returns 0 so every loaded
module is visited. -/
def overwrite_symbols (hooks : List Hook) (modules : List dl_phdr_info)
    (st : SweepState) : SweepState :=
  modules.foldl (phdrs_callback hooks false) st

/-- restore_symbols (elf_shenanigans.cpp): dl_iterate_phdr with
restore_original = true. -/
def restore_symbols (hooks : List Hook) (modules : List dl_phdr_info)
    (st : SweepState) : SweepState :=
  modules.foldl (phdrs_callback hooks true) st

/-! ## Write-trace view of a sweep (proof machinery) -/

/-- Apply a list of (address, value) stores left to right. -/
def applyWrites (ws : List (Nat × Nat)) (mem : Mem) : Mem :=
  ws.foldl (fun m w => store m w.1 w.2) mem

/-- The writes one PT_DYNAMIC header contributes, in order. -/
def segWrites (hooks : List Hook) (phdr : Phdr) (base : Nat)
    (restore_original : Bool) : List (Nat × Nat) :=
  phdr.rels.filterMap (relocWrite hooks phdr base restore_original) ++
    phdr.relas.filterMap (relocWrite hooks phdr base restore_original) ++
    phdr.jmprels.filterMap (relocWrite hooks phdr base restore_original)

/-- The writes one module's scan contributes: none for an excluded module,
otherwise the writes of its PT_DYNAMIC headers in order. -/
def moduleWrites (hooks : List Hook) (restore_original : Bool)
    (info : dl_phdr_info) : List (Nat × Nat) :=
  if excludedModule info.dlpi_name then []
  else
    (info.dlpi_phdr.map
      (fun phdr =>
        if phdr.p_type = PT_DYNAMIC then
          segWrites hooks phdr info.dlpi_addr restore_original
        else [])).flatten

/-- The writes of a full restore sweep: every module, unconditionally. -/
def restoreWrites (hooks : List Hook) (modules : List dl_phdr_info) :
    List (Nat × Nat) :=
  (modules.map (moduleWrites hooks true)).flatten

/-- The writes of a full overwrite sweep starting from a given patched
set: modules already in the set contribute nothing; the others contribute
their writes and are added to the set. -/
def overwriteWrites (hooks : List Hook) :
    List dl_phdr_info → List String → List (Nat × Nat)
  | [], _ => []
  | info :: rest, patched =>
    if info.dlpi_name ∈ patched then overwriteWrites hooks rest patched
    else
      moduleWrites hooks false info ++
        overwriteWrites hooks rest (info.dlpi_name :: patched)

/-! ## Symbol finder (phdr_symfind_callback, hooks.cpp) -/

/-- The search-state structure threaded through dl_iterate_phdr by the
symbol finder (symbol_query in hooks.h): the requested name, the count of
callback invocations so far, and the address found, if any. -/
structure symbol_query where
  symbol_name : String
  maps_visited : Nat
  address : Option Nat
  deriving DecidableEq

/-- The program-header loop of phdr_symfind_callback: skip non-PT_DYNAMIC
headers; resolve the name through the symbol table; an address of 0 means
not found in this header, anything else is returned immediately. -/
def symfind_loop (name : String) : List Phdr → Option Nat
  | [] => none
  | phdr :: rest =>
    if phdr.p_type ≠ PT_DYNAMIC then symfind_loop name rest
    else
      let offset := getSymbolAddress phdr name
      if offset = 0 then symfind_loop name rest
      else some offset

/-- phdr_symfind_callback (hooks.cpp).  maps_visited is post-incremented
on every invocation; a module with an empty path is visited only when it
is the very first callback; the vdso is always skipped; otherwise the
PT_DYNAMIC headers are searched and a hit sets the address and returns 1
(stopping dl_iterate_phdr). -/
def phdr_symfind_callback (info : dl_phdr_info) (result : symbol_query) :
    Nat × symbol_query :=
  let visited := result.maps_visited
  let result := { result with maps_visited := visited + 1 }
  if visited ≠ 0 ∧ info.dlpi_name = "" then (0, result)
  else if strstrContains info.dlpi_name "linux-vdso.so.1" then (0, result)
  else
    match symfind_loop result.symbol_name info.dlpi_phdr with
    | some offset => (1, { result with address := some offset })
    | none => (0, result)

/-- dl_iterate_phdr driving the symbol finder: calls the callback on each
module in order and stops as soon as it returns a non-zero value. -/
def dl_iterate_symfind : List dl_phdr_info → symbol_query → symbol_query
  | [], result => result
  | info :: rest, result =>
    let r := phdr_symfind_callback info result
    if r.1 ≠ 0 then r.2 else dl_iterate_symfind rest r.2

/-- findSymbol: the whole search, started with a fresh query. -/
def findSymbol (name : String) (modules : List dl_phdr_info) : Option Nat :=
  (dl_iterate_symfind modules { symbol_name := name, maps_visited := 0, address := none }).address

/-- Following the specification's words (refinement reference for the
symbol finder): a module is visited unless it has an empty path and is not
the first enumerated module, or its path contains the vdso name; a visited
module resolves through its PT_DYNAMIC headers. -/
def specVisitedResolve (name : String) (idx : Nat) (info : dl_phdr_info) :
    Option Nat :=
  if idx ≠ 0 ∧ info.dlpi_name = "" then none
  else if strstrContains info.dlpi_name "linux-vdso.so.1" then none
  else symfind_loop name info.dlpi_phdr

/-- Following the specification's words: the first visited module's
resolved address, scanning left to right. -/
def specFirstResult (name : String) : Nat → List dl_phdr_info → Option Nat
  | _, [] => none
  | idx, info :: rest =>
    match specVisitedResolve name idx info with
    | some a => some a
    | none => specFirstResult name (idx + 1) rest

/-! ## Write-trace lemmas -/

theorem store_same (mem : Mem) (addr v : Nat) : store mem addr v addr = v := by
  simp [store]

theorem store_other (mem : Mem) (addr v a : Nat) (h : a ≠ addr) :
    store mem addr v a = mem a := by
  simp [store, h]

theorem applyWrites_nil (mem : Mem) : applyWrites [] mem = mem := rfl

theorem applyWrites_cons (w : Nat × Nat) (ws : List (Nat × Nat)) (mem : Mem) :
    applyWrites (w :: ws) mem = applyWrites ws (store mem w.1 w.2) := rfl

theorem applyWrites_append (xs ys : List (Nat × Nat)) (mem : Mem) :
    applyWrites (xs ++ ys) mem = applyWrites ys (applyWrites xs mem) := by
  simp [applyWrites, List.foldl_append]

theorem applyWrites_of_not_mem (ws : List (Nat × Nat)) (mem : Mem) (a : Nat)
    (h : a ∉ ws.map Prod.fst) : applyWrites ws mem a = mem a := by
  induction ws generalizing mem with
  | nil => rfl
  | cons w ws ih =>
    simp only [List.map_cons, List.mem_cons, not_or] at h
    rw [applyWrites_cons, ih _ h.2, store_other _ _ _ _ h.1]

theorem applyWrites_congr (ws : List (Nat × Nat)) (m1 m2 : Mem)
    (h : ∀ a, a ∉ ws.map Prod.fst → m1 a = m2 a) :
    applyWrites ws m1 = applyWrites ws m2 := by
  induction ws generalizing m1 m2 with
  | nil => funext a; exact h a (by simp)
  | cons w ws ih =>
    rw [applyWrites_cons, applyWrites_cons]
    refine ih _ _ (fun a ha => ?_)
    by_cases hw : a = w.1
    · subst hw; rw [store_same, store_same]
    · rw [store_other _ _ _ _ hw, store_other _ _ _ _ hw]
      exact h a (by simp [ha, hw])

theorem applyWrites_fixed (ws : List (Nat × Nat)) (mem : Mem)
    (h : ∀ w ∈ ws, mem w.1 = w.2) : applyWrites ws mem = mem := by
  induction ws with
  | nil => rfl
  | cons w ws ih =>
    rw [applyWrites_cons]
    have hs : store mem w.1 w.2 = mem := by
      funext a
      by_cases ha : a = w.1
      · subst ha; rw [store_same]; exact (h w (List.mem_cons_self _ _)).symm
      · exact store_other _ _ _ _ ha
    rw [hs]
    exact ih (fun x hx => h x (List.mem_cons_of_mem _ hx))

/-! ## Bridging the sweeps to their write traces -/

theorem overwrite_elf_table_eq (hooks : List Hook) (table : List Reloc)
    (phdr : Phdr) (base : Nat) (r : Bool) (mem : Mem) :
    overwrite_elf_table hooks table phdr base r mem
      = applyWrites (table.filterMap (relocWrite hooks phdr base r)) mem := by
  induction table generalizing mem with
  | nil => rfl
  | cons rel rest ih =>
    cases hw : relocWrite hooks phdr base r rel with
    | none =>
      simp only [overwrite_elf_table, List.foldl_cons, hw, List.filterMap_cons] at ih ⊢
      exact ih mem
    | some w =>
      simp only [overwrite_elf_table, List.foldl_cons, hw, List.filterMap_cons,
        applyWrites_cons] at ih ⊢
      exact ih (store mem w.1 w.2)

theorem patch_symbols_eq (hooks : List Hook) (phdr : Phdr) (base : Nat)
    (r : Bool) (mem : Mem) :
    patch_symbols hooks phdr base r mem
      = applyWrites (segWrites hooks phdr base r) mem := by
  simp [patch_symbols, segWrites, overwrite_elf_table_eq, applyWrites_append]

theorem scan_fold_eq (hooks : List Hook) (r : Bool) (base : Nat)
    (phdrs : List Phdr) (mem : Mem) :
    phdrs.foldl
        (fun m phdr =>
          if phdr.p_type = PT_DYNAMIC then patch_symbols hooks phdr base r m else m)
        mem
      = applyWrites
          ((phdrs.map
            (fun phdr =>
              if phdr.p_type = PT_DYNAMIC then segWrites hooks phdr base r
              else [])).flatten)
          mem := by
  induction phdrs generalizing mem with
  | nil => rfl
  | cons phdr rest ih =>
    simp only [List.foldl_cons, List.map_cons, List.flatten_cons, applyWrites_append]
    by_cases h : phdr.p_type = PT_DYNAMIC
    · rw [if_pos h, if_pos h, patch_symbols_eq]
      exact ih _
    · rw [if_neg h, if_neg h, applyWrites_nil]
      exact ih mem

theorem scan_module_eq (hooks : List Hook) (r : Bool) (info : dl_phdr_info)
    (mem : Mem) :
    scan_module hooks r info mem = applyWrites (moduleWrites hooks r info) mem := by
  by_cases h : excludedModule info.dlpi_name
  · simp [scan_module, moduleWrites, h, applyWrites_nil]
  · simp only [scan_module, moduleWrites, h, Bool.false_eq_true, if_false]
    exact scan_fold_eq hooks r info.dlpi_addr info.dlpi_phdr mem

theorem phdrs_callback_restore (hooks : List Hook) (st : SweepState)
    (info : dl_phdr_info) :
    phdrs_callback hooks true st info
      = { patched := [], mem := scan_module hooks true info st.mem } := rfl

theorem restore_symbols_mem (hooks : List Hook) (modules : List dl_phdr_info) :
    ∀ st : SweepState,
      (restore_symbols hooks modules st).mem
        = applyWrites (restoreWrites hooks modules) st.mem := by
  induction modules with
  | nil => intro st; rfl
  | cons info rest ih =>
    intro st
    have h1 : restore_symbols hooks (info :: rest) st
        = restore_symbols hooks rest (phdrs_callback hooks true st info) := rfl
    rw [h1, ih, phdrs_callback_restore]
    show applyWrites (restoreWrites hooks rest) (scan_module hooks true info st.mem) = _
    rw [scan_module_eq]
    have h2 : restoreWrites hooks (info :: rest)
        = moduleWrites hooks true info ++ restoreWrites hooks rest := by
      simp [restoreWrites]
    rw [h2, applyWrites_append]

theorem phdrs_callback_overwrite_skip (hooks : List Hook) (st : SweepState)
    (info : dl_phdr_info) (h : info.dlpi_name ∈ st.patched) :
    phdrs_callback hooks false st info = st := by
  simp [phdrs_callback, h]

theorem phdrs_callback_overwrite_new (hooks : List Hook) (st : SweepState)
    (info : dl_phdr_info) (h : info.dlpi_name ∉ st.patched) :
    phdrs_callback hooks false st info
      = { patched := info.dlpi_name :: st.patched
          mem := scan_module hooks false info st.mem } := by
  simp [phdrs_callback, h]

theorem overwrite_symbols_mem (hooks : List Hook) (modules : List dl_phdr_info) :
    ∀ st : SweepState,
      (overwrite_symbols hooks modules st).mem
        = applyWrites (overwriteWrites hooks modules st.patched) st.mem := by
  induction modules with
  | nil => intro st; rfl
  | cons info rest ih =>
    intro st
    have h1 : overwrite_symbols hooks (info :: rest) st
        = overwrite_symbols hooks rest (phdrs_callback hooks false st info) := rfl
    by_cases h : info.dlpi_name ∈ st.patched
    · rw [h1, phdrs_callback_overwrite_skip hooks st info h, ih]
      simp [overwriteWrites, h]
    · rw [h1, phdrs_callback_overwrite_new hooks st info h, ih]
      show applyWrites (overwriteWrites hooks rest (info.dlpi_name :: st.patched))
        (scan_module hooks false info st.mem) = _
      rw [scan_module_eq]
      have h2 : overwriteWrites hooks (info :: rest) st.patched
          = moduleWrites hooks false info
            ++ overwriteWrites hooks rest (info.dlpi_name :: st.patched) := by
        simp [overwriteWrites, h]
      rw [h2, applyWrites_append]

/-! ## The written addresses do not depend on the sweep direction -/

theorem relocWrite_fst (hooks : List Hook) (phdr : Phdr) (base : Nat)
    (r r' : Bool) (rel : Reloc) :
    (relocWrite hooks phdr base r rel).map Prod.fst
      = (relocWrite hooks phdr base r' rel).map Prod.fst := by
  unfold relocWrite
  generalize List.find? _ hooks = o
  cases o <;> rfl

theorem filterMap_relocWrite_fst (hooks : List Hook) (phdr : Phdr) (base : Nat)
    (r r' : Bool) (table : List Reloc) :
    (table.filterMap (relocWrite hooks phdr base r)).map Prod.fst
      = (table.filterMap (relocWrite hooks phdr base r')).map Prod.fst := by
  induction table with
  | nil => rfl
  | cons rel rest ih =>
    simp only [List.filterMap_cons]
    have := relocWrite_fst hooks phdr base r r' rel
    cases h1 : relocWrite hooks phdr base r rel with
    | none =>
      cases h2 : relocWrite hooks phdr base r' rel with
      | none => exact ih
      | some w => rw [h1, h2] at this; simp at this
    | some w =>
      cases h2 : relocWrite hooks phdr base r' rel with
      | none => rw [h1, h2] at this; simp at this
      | some w' =>
        rw [h1, h2] at this
        simp only [List.map_cons, ih]
        simp at this
        rw [this]

theorem segWrites_fst (hooks : List Hook) (phdr : Phdr) (base : Nat)
    (r r' : Bool) :
    (segWrites hooks phdr base r).map Prod.fst
      = (segWrites hooks phdr base r').map Prod.fst := by
  simp only [segWrites, List.map_append]
  rw [filterMap_relocWrite_fst hooks phdr base r r' phdr.rels,
    filterMap_relocWrite_fst hooks phdr base r r' phdr.relas,
    filterMap_relocWrite_fst hooks phdr base r r' phdr.jmprels]

theorem moduleWrites_fst (hooks : List Hook) (r r' : Bool) (info : dl_phdr_info) :
    (moduleWrites hooks r info).map Prod.fst
      = (moduleWrites hooks r' info).map Prod.fst := by
  unfold moduleWrites
  by_cases h : excludedModule info.dlpi_name
  · simp [h]
  · simp only [h, Bool.false_eq_true, if_false]
    induction info.dlpi_phdr with
    | nil => rfl
    | cons phdr rest ih =>
      simp only [List.map_cons, List.flatten_cons, List.map_append, ih]
      congr 1
      by_cases hp : phdr.p_type = PT_DYNAMIC
      · rw [if_pos hp, if_pos hp]; exact segWrites_fst hooks phdr info.dlpi_addr r r'
      · rw [if_neg hp, if_neg hp]

theorem overwriteWrites_fst_subset (hooks : List Hook) :
    ∀ (modules : List dl_phdr_info) (patched : List String) (a : Nat),
      a ∈ (overwriteWrites hooks modules patched).map Prod.fst →
        a ∈ (restoreWrites hooks modules).map Prod.fst := by
  intro modules
  induction modules with
  | nil => intro patched a ha; exact absurd ha (by simp [overwriteWrites, restoreWrites])
  | cons info rest ih =>
    intro patched a ha
    have hres : (restoreWrites hooks (info :: rest)).map Prod.fst
        = (moduleWrites hooks true info).map Prod.fst
          ++ (restoreWrites hooks rest).map Prod.fst := by
      simp [restoreWrites]
    rw [hres, List.mem_append]
    by_cases h : info.dlpi_name ∈ patched
    · simp only [overwriteWrites, if_pos h] at ha
      exact Or.inr (ih patched a ha)
    · simp only [overwriteWrites, if_neg h, List.map_append, List.mem_append] at ha
      cases ha with
      | inl hl =>
        exact Or.inl (by rw [← moduleWrites_fst hooks false true info]; exact hl)
      | inr hr => exact Or.inr (ih _ a hr)

/-! ## Restore writes store captured original pointers -/

theorem relocWrite_restore_original (hooks : List Hook) (phdr : Phdr)
    (base : Nat) (rel : Reloc) (w : Nat × Nat)
    (h : relocWrite hooks phdr base true rel = some w) :
    ∃ hook ∈ hooks, w.2 = hook.d_original := by
  unfold relocWrite at h
  cases hf : hooks.find?
      (fun hk => hk.d_symbol = getSymbolNameByIndex phdr (ELF_R_SYM rel.r_info)) with
  | none => rw [hf] at h; exact absurd h (by simp)
  | some hook =>
    rw [hf] at h
    simp only [Option.some.injEq] at h
    exact ⟨hook, List.mem_of_find?_eq_some hf, by rw [← h]; simp [patched_value]⟩

theorem restoreWrites_original (hooks : List Hook) (modules : List dl_phdr_info) :
    ∀ w ∈ restoreWrites hooks modules, ∃ hook ∈ hooks, w.2 = hook.d_original := by
  intro w hw
  unfold restoreWrites at hw
  rw [List.mem_flatten] at hw
  obtain ⟨l, hl, hwl⟩ := hw
  rw [List.mem_map] at hl
  obtain ⟨info, _, rfl⟩ := hl
  unfold moduleWrites at hwl
  by_cases h : excludedModule info.dlpi_name
  · simp [h] at hwl
  · simp only [h, Bool.false_eq_true, if_false] at hwl
    rw [List.mem_flatten] at hwl
    obtain ⟨l2, hl2, hwl2⟩ := hwl
    rw [List.mem_map] at hl2
    obtain ⟨phdr, _, rfl⟩ := hl2
    by_cases hp : phdr.p_type = PT_DYNAMIC
    · rw [if_pos hp] at hwl2
      unfold segWrites at hwl2
      rw [List.mem_append, List.mem_append] at hwl2
      rcases hwl2 with (hm | hm) | hm <;>
        · rw [List.mem_filterMap] at hm
          obtain ⟨rel, _, hrel⟩ := hm
          exact relocWrite_restore_original hooks phdr info.dlpi_addr rel w hrel
    · rw [if_neg hp] at hwl2
      exact absurd hwl2 (by simp)

/-! ## The restore sweep clears the patched set -/

theorem restore_patched_of_nil (hooks : List Hook) :
    ∀ (modules : List dl_phdr_info) (st : SweepState),
      st.patched = [] → (restore_symbols hooks modules st).patched = [] := by
  intro modules
  induction modules with
  | nil => intro st h; exact h
  | cons info rest ih =>
    intro st h
    exact ih (phdrs_callback hooks true st info) rfl

/-- C2: after an overwrite sweep from a clean slate, a restore sweep —
which writes every matched relocation slot back to the matching hook's
captured original pointer (third conjunct) — leaves the whole relocation
memory bit-identical to its pre-patch contents and leaves the
patched-module set empty, provided every slot a restore would touch held
the matching hook's captured original pointer before the sweeps (the
invariant established when the hooks captured the genuine
implementations). -/
theorem overwrite_restore_roundtrip (hooks : List Hook)
    (modules : List dl_phdr_info) (mem0 : Mem)
    (h : ∀ w ∈ restoreWrites hooks modules, mem0 w.1 = w.2) :
    (restore_symbols hooks modules
        (overwrite_symbols hooks modules ⟨[], mem0⟩)).mem = mem0
    ∧ (restore_symbols hooks modules
        (overwrite_symbols hooks modules ⟨[], mem0⟩)).patched = []
    ∧ ∀ w ∈ restoreWrites hooks modules, ∃ hook ∈ hooks, w.2 = hook.d_original := by
  have hmem1 : (overwrite_symbols hooks modules ⟨[], mem0⟩).mem
      = applyWrites (overwriteWrites hooks modules []) mem0 :=
    overwrite_symbols_mem hooks modules ⟨[], mem0⟩
  have hmem2 : (restore_symbols hooks modules
        (overwrite_symbols hooks modules ⟨[], mem0⟩)).mem
      = applyWrites (restoreWrites hooks modules)
          (overwrite_symbols hooks modules ⟨[], mem0⟩).mem :=
    restore_symbols_mem hooks modules _
  have hcongr : applyWrites (restoreWrites hooks modules)
        (overwrite_symbols hooks modules ⟨[], mem0⟩).mem
      = applyWrites (restoreWrites hooks modules) mem0 := by
    refine applyWrites_congr _ _ _ (fun a ha => ?_)
    rw [hmem1]
    refine applyWrites_of_not_mem _ _ _ (fun hmem => ?_)
    exact ha (overwriteWrites_fst_subset hooks modules [] a hmem)
  have hpatched : (restore_symbols hooks modules
      (overwrite_symbols hooks modules ⟨[], mem0⟩)).patched = [] := by
    cases modules with
    | nil => rfl
    | cons info rest =>
      exact restore_patched_of_nil hooks rest _ rfl
  exact ⟨by rw [hmem2, hcongr, applyWrites_fixed _ _ h], hpatched,
    restoreWrites_original hooks modules⟩

/-- C2 witness: one hook ("malloc", original 111, trampoline 222) and one
module with a single matching relocation at slot 105 initially holding the
original pointer. -/
theorem overwrite_restore_roundtrip_witness :
    (∀ w ∈ restoreWrites [⟨"malloc", 111, 222⟩]
        [⟨"libc.so", 100, [⟨2, [⟨5, 0⟩], [], [], ["malloc"], []⟩]⟩],
      (fun a => if a = 105 then 111 else 0 : Mem) w.1 = w.2)
    ∧ (restore_symbols [⟨"malloc", 111, 222⟩]
        [⟨"libc.so", 100, [⟨2, [⟨5, 0⟩], [], [], ["malloc"], []⟩]⟩]
        (overwrite_symbols [⟨"malloc", 111, 222⟩]
          [⟨"libc.so", 100, [⟨2, [⟨5, 0⟩], [], [], ["malloc"], []⟩]⟩]
          ⟨[], fun a => if a = 105 then 111 else 0⟩)).mem
      = (fun a => if a = 105 then 111 else 0)
    ∧ (restore_symbols [⟨"malloc", 111, 222⟩]
        [⟨"libc.so", 100, [⟨2, [⟨5, 0⟩], [], [], ["malloc"], []⟩]⟩]
        (overwrite_symbols [⟨"malloc", 111, 222⟩]
          [⟨"libc.so", 100, [⟨2, [⟨5, 0⟩], [], [], ["malloc"], []⟩]⟩]
          ⟨[], fun a => if a = 105 then 111 else 0⟩)).patched = [] :=
  ⟨by decide,
    (overwrite_restore_roundtrip [⟨"malloc", 111, 222⟩]
      [⟨"libc.so", 100, [⟨2, [⟨5, 0⟩], [], [], ["malloc"], []⟩]⟩]
      (fun a => if a = 105 then 111 else 0) (by decide)).1,
    (overwrite_restore_roundtrip [⟨"malloc", 111, 222⟩]
      [⟨"libc.so", 100, [⟨2, [⟨5, 0⟩], [], [], ["malloc"], []⟩]⟩]
      (fun a => if a = 105 then 111 else 0) (by decide)).2.1⟩

/-! ## The overwrite sweep is idempotent within an epoch -/

theorem overwrite_callback_patched_mono (hooks : List Hook) (st : SweepState)
    (info : dl_phdr_info) (x : String) (hx : x ∈ st.patched) :
    x ∈ (phdrs_callback hooks false st info).patched := by
  by_cases h : info.dlpi_name ∈ st.patched
  · rw [phdrs_callback_overwrite_skip hooks st info h]; exact hx
  · rw [phdrs_callback_overwrite_new hooks st info h]
    exact List.mem_cons_of_mem _ hx

theorem overwrite_callback_patched_self (hooks : List Hook) (st : SweepState)
    (info : dl_phdr_info) :
    info.dlpi_name ∈ (phdrs_callback hooks false st info).patched := by
  by_cases h : info.dlpi_name ∈ st.patched
  · rw [phdrs_callback_overwrite_skip hooks st info h]; exact h
  · rw [phdrs_callback_overwrite_new hooks st info h]
    exact List.mem_cons_self _ _

theorem overwrite_symbols_patched_mono (hooks : List Hook) :
    ∀ (modules : List dl_phdr_info) (st : SweepState) (x : String),
      x ∈ st.patched → x ∈ (overwrite_symbols hooks modules st).patched := by
  intro modules
  induction modules with
  | nil => intro st x hx; exact hx
  | cons info rest ih =>
    intro st x hx
    exact ih (phdrs_callback hooks false st info) x
      (overwrite_callback_patched_mono hooks st info x hx)

theorem overwrite_symbols_patched_all (hooks : List Hook) :
    ∀ (modules : List dl_phdr_info) (st : SweepState),
      ∀ info ∈ modules,
        info.dlpi_name ∈ (overwrite_symbols hooks modules st).patched := by
  intro modules
  induction modules with
  | nil => intro st info hinfo; exact absurd hinfo (List.not_mem_nil _)
  | cons m rest ih =>
    intro st info hinfo
    rcases List.mem_cons.mp hinfo with rfl | hmem
    · exact overwrite_symbols_patched_mono hooks rest _ _
        (overwrite_callback_patched_self hooks st info)
    · exact ih _ info hmem

theorem overwrite_symbols_skip_all (hooks : List Hook) :
    ∀ (modules : List dl_phdr_info) (st : SweepState),
      (∀ info ∈ modules, info.dlpi_name ∈ st.patched) →
        overwrite_symbols hooks modules st = st := by
  intro modules
  induction modules with
  | nil => intro st _; rfl
  | cons info rest ih =>
    intro st h
    have h1 : phdrs_callback hooks false st info = st :=
      phdrs_callback_overwrite_skip hooks st info (h info (List.mem_cons_self _ _))
    have h2 : overwrite_symbols hooks (info :: rest) st
        = overwrite_symbols hooks rest (phdrs_callback hooks false st info) := rfl
    rw [h2, h1]
    exact ih st (fun m hm => h m (List.mem_cons_of_mem _ hm))

theorem overwriteWrites_nil_of_all (hooks : List Hook) :
    ∀ (modules : List dl_phdr_info) (patched : List String),
      (∀ info ∈ modules, info.dlpi_name ∈ patched) →
        overwriteWrites hooks modules patched = [] := by
  intro modules
  induction modules with
  | nil => intro patched _; rfl
  | cons info rest ih =>
    intro patched h
    simp only [overwriteWrites, if_pos (h info (List.mem_cons_self _ _))]
    exact ih patched (fun m hm => h m (List.mem_cons_of_mem _ hm))

/-- C5: running overwrite_symbols a second time without an intervening
restore leaves the sweep state unchanged — every module's load path is
already in the patched set, so each module is skipped entirely — and the
second sweep performs no relocation-slot write at all, so the observable
patch count per module stays at 1 within the epoch. -/
theorem overwrite_twice_idempotent (hooks : List Hook)
    (modules : List dl_phdr_info) (mem0 : Mem) :
    overwrite_symbols hooks modules (overwrite_symbols hooks modules ⟨[], mem0⟩)
      = overwrite_symbols hooks modules ⟨[], mem0⟩
    ∧ overwriteWrites hooks modules
        (overwrite_symbols hooks modules ⟨[], mem0⟩).patched = [] := by
  have hall : ∀ info ∈ modules,
      info.dlpi_name ∈ (overwrite_symbols hooks modules ⟨[], mem0⟩).patched :=
    overwrite_symbols_patched_all hooks modules ⟨[], mem0⟩
  exact ⟨overwrite_symbols_skip_all hooks modules _ hall,
    overwriteWrites_nil_of_all hooks modules _ hall⟩

/-- C9: a module whose path contains "/ld-linux" or "linux-vdso.so.1" is
never scanned in any sweep: its visit leaves the relocation memory
untouched and it contributes no write. -/
theorem excluded_module_never_patched (hooks : List Hook) (info : dl_phdr_info)
    (h : strstrContains info.dlpi_name "/ld-linux" = true
      ∨ strstrContains info.dlpi_name "linux-vdso.so.1" = true) :
    ∀ (restore_original : Bool) (st : SweepState),
      (phdrs_callback hooks restore_original st info).mem = st.mem
      ∧ moduleWrites hooks restore_original info = [] := by
  have hex : excludedModule info.dlpi_name = true := by
    unfold excludedModule; rcases h with h | h <;> simp [h]
  intro r st
  refine ⟨?_, by simp [moduleWrites, hex]⟩
  cases r with
  | false =>
    by_cases hm : info.dlpi_name ∈ st.patched
    · rw [phdrs_callback_overwrite_skip hooks st info hm]
    · rw [phdrs_callback_overwrite_new hooks st info hm]
      simp [scan_module, hex]
  | true =>
    rw [phdrs_callback_restore hooks st info]
    simp [scan_module, hex]

/-- C9 witness: the vdso module itself, visited by a restore sweep. -/
theorem excluded_module_never_patched_witness :
    (strstrContains "linux-vdso.so.1" "/ld-linux" = true
      ∨ strstrContains "linux-vdso.so.1" "linux-vdso.so.1" = true)
    ∧ (phdrs_callback [] true ⟨[], fun _ => 0⟩ ⟨"linux-vdso.so.1", 0, []⟩).mem
      = (fun _ => 0 : Mem)
    ∧ moduleWrites [] true ⟨"linux-vdso.so.1", 0, []⟩ = [] :=
  ⟨Or.inr (by decide),
    (excluded_module_never_patched [] ⟨"linux-vdso.so.1", 0, []⟩
      (Or.inr (by decide)) true ⟨[], fun _ => 0⟩).1,
    (excluded_module_never_patched [] ⟨"linux-vdso.so.1", 0, []⟩
      (Or.inr (by decide)) true ⟨[], fun _ => 0⟩).2⟩

/-- C10: during an overwrite sweep, a module not yet in the patched set is
inserted into it before the dynamic-linker / vdso exclusion check runs:
an excluded module still ends up occupying an entry in the patched set
even though its visit writes nothing. -/
theorem excluded_module_still_marked (hooks : List Hook) (st : SweepState)
    (info : dl_phdr_info)
    (h1 : excludedModule info.dlpi_name = true)
    (h2 : info.dlpi_name ∉ st.patched) :
    phdrs_callback hooks false st info
      = { patched := info.dlpi_name :: st.patched, mem := st.mem } := by
  rw [phdrs_callback_overwrite_new hooks st info h2]
  simp [SweepState.mk.injEq, scan_module, h1]

/-- C10 witness: the dynamic linker module under an overwrite sweep from
an empty patched set. -/
theorem excluded_module_still_marked_witness :
    excludedModule "/lib64/ld-linux-x86-64.so.2" = true
    ∧ ("/lib64/ld-linux-x86-64.so.2" ∉ ([] : List String))
    ∧ phdrs_callback [] false ⟨[], fun _ => 0⟩ ⟨"/lib64/ld-linux-x86-64.so.2", 0, []⟩
      = { patched := ["/lib64/ld-linux-x86-64.so.2"], mem := fun _ => 0 } :=
  ⟨by decide, by decide,
    excluded_module_still_marked [] ⟨[], fun _ => 0⟩
      ⟨"/lib64/ld-linux-x86-64.so.2", 0, []⟩ (by decide) (by decide)⟩

/-! ## Trampoline contracts -/

/-- C1 counterexample: with a requested size of 5 and the real malloc
returning null (0), the malloc trampoline still sends a trackAllocation
notification to the sink — refuting the claim that a null result emits no
sink notification. -/
theorem allocate_null_still_notifies :
    Action.trackAllocation 0 5 Allocator.MALLOC ∈ (intercept.malloc 5 0).2
    ∧ sinkActions (intercept.malloc 5 0).2 ≠ [] := by decide

/-- C1 amended: every allocate trampoline performs the real call first and
notifies the sink with (resulting pointer, requested size,
classification); calloc, realloc, posix_memalign, memalign, valloc and
pvalloc do so only when the real call's result is non-null/successful and
emit nothing on failure, while malloc, mmap and mmap64 notify the sink
unconditionally, even when the real call's result is null/failed (calloc's
requested size is num * size; realloc also emits its free event, per its
own contract). -/
theorem allocate_trampolines_contract
    (size num alignment addr length prot flags fd offset ptr : Nat)
    (rm rc rr rme rv rp rmm rmm64 pmem : Nat) (pret : Int) :
    (intercept.malloc size rm).2.head? = some (.callReal "malloc")
    ∧ sinkActions (intercept.malloc size rm).2 = [.trackAllocation rm size .MALLOC]
    ∧ (intercept.calloc num size rc).2.head? = some (.callReal "calloc")
    ∧ sinkActions (intercept.calloc num size rc).2
      = (if rc ≠ 0 then [.trackAllocation rc (num * size) .CALLOC] else [])
    ∧ (intercept.realloc ptr size rr).2.head? = some (.callReal "realloc")
    ∧ sinkActions (intercept.realloc ptr size rr).2
      = (if rr ≠ 0 then
          [.trackDeallocation ptr 0 .FREE, .trackAllocation rr size .REALLOC]
        else [])
    ∧ (intercept.posix_memalign alignment size pret pmem).2.head?
      = some (.callReal "posix_memalign")
    ∧ sinkActions (intercept.posix_memalign alignment size pret pmem).2
      = (if pret = 0 then [.trackAllocation pmem size .POSIX_MEMALIGN] else [])
    ∧ (intercept.memalign alignment size rme).2.head? = some (.callReal "memalign")
    ∧ sinkActions (intercept.memalign alignment size rme).2
      = (if rme ≠ 0 then [.trackAllocation rme size .MEMALIGN] else [])
    ∧ (intercept.valloc size rv).2.head? = some (.callReal "valloc")
    ∧ sinkActions (intercept.valloc size rv).2
      = (if rv ≠ 0 then [.trackAllocation rv size .VALLOC] else [])
    ∧ (intercept.pvalloc size rp).2.head? = some (.callReal "pvalloc")
    ∧ sinkActions (intercept.pvalloc size rp).2
      = (if rp ≠ 0 then [.trackAllocation rp size .PVALLOC] else [])
    ∧ (intercept.mmap addr length prot flags fd offset rmm).2.head?
      = some (.callReal "mmap")
    ∧ sinkActions (intercept.mmap addr length prot flags fd offset rmm).2
      = [.trackAllocation rmm length .MMAP]
    ∧ (intercept.mmap64 addr length prot flags fd offset rmm64).2.head?
      = some (.callReal "mmap64")
    ∧ sinkActions (intercept.mmap64 addr length prot flags fd offset rmm64).2
      = [.trackAllocation rmm64 length .MMAP] := by
  refine ⟨rfl, by simp [intercept.malloc, sinkActions], rfl, ?_, rfl, ?_, rfl, ?_,
    rfl, ?_, rfl, ?_, rfl, ?_,
    rfl, by simp [intercept.mmap, sinkActions],
    rfl, by simp [intercept.mmap64, sinkActions]⟩
  · by_cases h : rc = 0 <;> simp [intercept.calloc, sinkActions, h]
  · by_cases h : rr = 0 <;> simp [intercept.realloc, sinkActions, h]
  · by_cases h : pret = 0 <;> simp [intercept.posix_memalign, sinkActions, h]
  · by_cases h : rme = 0 <;> simp [intercept.memalign, sinkActions, h]
  · by_cases h : rv = 0 <;> simp [intercept.valloc, sinkActions, h]
  · by_cases h : rp = 0 <;> simp [intercept.pvalloc, sinkActions, h]

/-- C3: the realloc trampoline returns the real call's result; on a
non-null result its sink notifications are exactly one deallocation event
for the old pointer with size 0, strictly followed by exactly one
allocation event for the returned pointer with the requested size; on a
null result it emits no sink notification at all. -/
theorem realloc_contract (ptr size real_realloc : Nat) :
    (intercept.realloc ptr size real_realloc).1 = real_realloc
    ∧ sinkActions (intercept.realloc ptr size real_realloc).2
      = (if real_realloc ≠ 0 then
          [.trackDeallocation ptr 0 .FREE,
            .trackAllocation real_realloc size .REALLOC]
        else [])
    ∧ (intercept.realloc ptr size real_realloc).2.head?
      = some (.callReal "realloc") := by
  refine ⟨rfl, ?_, rfl⟩
  by_cases h : real_realloc = 0 <;> simp [intercept.realloc, sinkActions, h]

/-- C4: both deallocate trampolines emit their sink notification strictly
before the real deallocation executes: free's trace is exactly
trackDeallocation(ptr, 0, FREE) then the real free, and munmap's trace is
exactly trackDeallocation(addr, length, MUNMAP) then the real munmap. -/
theorem deallocate_notify_before_real (ptr addr length : Nat)
    (real_munmap : Int) :
    intercept.free ptr = [.trackDeallocation ptr 0 .FREE, .callReal "free"]
    ∧ (intercept.munmap addr length real_munmap).2
      = [.trackDeallocation addr length .MUNMAP, .callReal "munmap"] :=
  ⟨rfl, rfl⟩

/-- C7: the dlclose trampoline performs the real call first, then always
flushes the native trace cache, and invalidates the module cache exactly
when the real call returned 0 (success). -/
theorem dlclose_contract (handle : Nat) (real_dlclose : Int) :
    (intercept.dlclose handle real_dlclose).2
      = [.callReal "dlclose", .flushNativeTraceCache]
        ++ (if real_dlclose = 0 then [.invalidateModuleCache] else [])
    ∧ (intercept.dlclose handle real_dlclose).2.head? = some (.callReal "dlclose")
    ∧ .flushNativeTraceCache ∈ (intercept.dlclose handle real_dlclose).2
    ∧ (.invalidateModuleCache ∈ (intercept.dlclose handle real_dlclose).2
        ↔ real_dlclose = 0) := by
  refine ⟨rfl, rfl, ?_, ?_⟩
  · simp [intercept.dlclose]
  · by_cases h : real_dlclose = 0 <;> simp [intercept.dlclose, h]

/-- C8: patch_symbol writes the intended value into the slot no matter
what the page-permission change returned; the warning is logged exactly
when the mprotect result is negative; and the written value does not
depend on the mprotect result at all — patch_symbol's outcome carries no
error channel back to the caller. -/
theorem patch_symbol_tolerates_mprotect_failure (hook : Hook)
    (intercept_fn : Nat) (unprotect_result : Int) (restore_original : Bool) :
    (patch_symbol hook intercept_fn unprotect_result restore_original).written
      = patched_value hook intercept_fn restore_original
    ∧ ((patch_symbol hook intercept_fn unprotect_result restore_original).warned
        = true ↔ unprotect_result < 0)
    ∧ ∀ other : Int,
        (patch_symbol hook intercept_fn other restore_original).written
          = (patch_symbol hook intercept_fn unprotect_result
              restore_original).written := by
  refine ⟨rfl, ?_, fun other => rfl⟩
  simp [patch_symbol]

/-! ## Symbol finder characterization -/

theorem dl_iterate_symfind_char (name : String) :
    ∀ (modules : List dl_phdr_info) (k : Nat),
      (dl_iterate_symfind modules ⟨name, k, none⟩).address
        = specFirstResult name k modules
      ∧ (specFirstResult name k modules = none →
          (dl_iterate_symfind modules ⟨name, k, none⟩).maps_visited
            = k + modules.length) := by
  intro modules
  induction modules with
  | nil => intro k; exact ⟨rfl, fun _ => rfl⟩
  | cons info rest ih =>
    intro k
    by_cases h1 : k ≠ 0 ∧ info.dlpi_name = ""
    · have hc : phdr_symfind_callback info ⟨name, k, none⟩ = (0, ⟨name, k + 1, none⟩) := by
        simp [phdr_symfind_callback, h1]
      have hit : dl_iterate_symfind (info :: rest) ⟨name, k, none⟩
          = dl_iterate_symfind rest ⟨name, k + 1, none⟩ := by
        simp [dl_iterate_symfind, hc]
      have hspec : specFirstResult name k (info :: rest)
          = specFirstResult name (k + 1) rest := by
        simp [specFirstResult, specVisitedResolve, h1]
      rw [hit, hspec]
      refine ⟨(ih (k + 1)).1, fun hn => ?_⟩
      have := (ih (k + 1)).2 hn
      rw [this]
      simp [List.length_cons]
      omega
    · by_cases h2 : strstrContains info.dlpi_name "linux-vdso.so.1" = true
      · have hc : phdr_symfind_callback info ⟨name, k, none⟩ = (0, ⟨name, k + 1, none⟩) := by
          simp [phdr_symfind_callback, h1, h2]
        have hit : dl_iterate_symfind (info :: rest) ⟨name, k, none⟩
            = dl_iterate_symfind rest ⟨name, k + 1, none⟩ := by
          simp [dl_iterate_symfind, hc]
        have hspec : specFirstResult name k (info :: rest)
            = specFirstResult name (k + 1) rest := by
          simp [specFirstResult, specVisitedResolve, h1, h2]
        rw [hit, hspec]
        refine ⟨(ih (k + 1)).1, fun hn => ?_⟩
        have := (ih (k + 1)).2 hn
        rw [this]
        simp [List.length_cons]
        omega
      · cases hl : symfind_loop name info.dlpi_phdr with
        | some offset =>
          have hc : phdr_symfind_callback info ⟨name, k, none⟩
              = (1, ⟨name, k + 1, some offset⟩) := by
            simp [phdr_symfind_callback, h1, h2, hl]
          have hit : dl_iterate_symfind (info :: rest) ⟨name, k, none⟩
              = ⟨name, k + 1, some offset⟩ := by
            simp [dl_iterate_symfind, hc]
          have hspec : specFirstResult name k (info :: rest) = some offset := by
            simp [specFirstResult, specVisitedResolve, h1, h2, hl]
          rw [hit, hspec]
          exact ⟨rfl, fun hn => absurd hn (by simp)⟩
        | none =>
          have hc : phdr_symfind_callback info ⟨name, k, none⟩
              = (0, ⟨name, k + 1, none⟩) := by
            simp [phdr_symfind_callback, h1, h2, hl]
          have hit : dl_iterate_symfind (info :: rest) ⟨name, k, none⟩
              = dl_iterate_symfind rest ⟨name, k + 1, none⟩ := by
            simp [dl_iterate_symfind, hc]
          have hspec : specFirstResult name k (info :: rest)
              = specFirstResult name (k + 1) rest := by
            simp [specFirstResult, specVisitedResolve, h1, h2, hl]
          rw [hit, hspec]
          refine ⟨(ih (k + 1)).1, fun hn => ?_⟩
          have := (ih (k + 1)).2 hn
          rw [this]
          simp [List.length_cons]
          omega

/-- C6: the symbol finder returns exactly the first address resolved by a
visited module — where a module is skipped iff it is the vdso or it has an
empty path without being the first enumerated module, and within a visited
module the first PT_DYNAMIC header resolving the name wins — stopping
enumeration at that module; and when no visited module resolves the name,
not-found is reported only after every loaded module has been examined
(maps_visited equals the module count). -/
theorem findSymbol_contract (name : String) (modules : List dl_phdr_info) :
    findSymbol name modules = specFirstResult name 0 modules
    ∧ (findSymbol name modules = none →
        (dl_iterate_symfind modules ⟨name, 0, none⟩).maps_visited
          = modules.length) := by
  have h := dl_iterate_symfind_char name modules 0
  refine ⟨h.1, fun hn => ?_⟩
  have h2 := h.2 (by rw [← h.1]; exact hn)
  simpa using h2

/-- C6 witness: one module with an empty path whose symbol table does not
contain the requested name — the finder reports not-found with every
module examined. -/
theorem findSymbol_contract_witness :
    findSymbol "foo" [⟨"", 0, [⟨2, [], [], [], [], [("bar", 7)]⟩]⟩] = none
    ∧ (dl_iterate_symfind [⟨"", 0, [⟨2, [], [], [], [], [("bar", 7)]⟩]⟩]
        ⟨"foo", 0, none⟩).maps_visited
      = ([⟨"", 0, [⟨2, [], [], [], [], [("bar", 7)]⟩]⟩] : List dl_phdr_info).length :=
  ⟨by decide,
    (findSymbol_contract "foo" [⟨"", 0, [⟨2, [], [], [], [], [("bar", 7)]⟩]⟩]).2
      (by decide)⟩

end PensieveModel
